import Mathlib

/-!
Verification development for the scorm-reel-maker player.

The definitions below are shallow embeddings of the repository's code:
* `ScormSW` embeds `public/scorm-sw.js` (the virtual file server).
* `ScormApi` embeds the SCORM 1.2 / 2004 runtime shim of
  `src/components/scorm/ContentViewer.tsx`.
* `EntryResolution` embeds the entry-path fallback logic of
  `loadScormContent` in the same file.
* `Navigation` embeds `scoreElement` / `autoClickElements`.
* `Player` embeds the orchestration state of the `ScormPlayer` page.
* `Recording` embeds `downloadRecording` of `RecordingControls`.
-/

namespace ScormSW

/-- Raw file bytes stored in the service worker's map. -/
abbrev Bytes := List Nat

/-- Service-worker global state: `scormFiles` map and `baseUrl`
(`scorm-sw.js` lines 2-3). -/
structure SWState where
  scormFiles : List (String × Bytes)
  baseUrl : String

/-- `scormFiles.get(p)`: map lookup, `undefined` becomes `none`. -/
def lookupFile (files : List (String × Bytes)) (p : String) : Option Bytes :=
  files.lookup p

/-- `filePath.replace(/^\/+/, '')`: drop all leading slashes. -/
def stripLeadingSlashes (s : String) : String :=
  ⟨s.data.dropWhile (fun c => c == '/')⟩

/-- The `pathVariations` array tried by the fetch handler, in source order. -/
def pathVariations (st : SWState) (filePath : String) : List String :=
  [filePath,
   stripLeadingSlashes filePath,
   st.baseUrl ++ filePath,
   st.baseUrl ++ stripLeadingSlashes filePath]

/-- The fetch handler's lookup: exact match first, then the variation loop,
`none` modelling the 404 response. -/
def resolve (st : SWState) (filePath : String) : Option Bytes :=
  match lookupFile st.scormFiles filePath with
  | some d => some d
  | none => (pathVariations st filePath).findSome? (lookupFile st.scormFiles)

/-- Messages accepted by the service worker's message handler. -/
inductive SWMessage where
  | initScorm (files : List (String × Bytes)) (baseUrl : String)
  | clearScorm

/-- The `message` event handler: `INIT_SCORM` replaces the map and base url,
`CLEAR_SCORM` empties the map (`baseUrl` is left as is). -/
def handleMessage (st : SWState) : SWMessage → SWState
  | .initScorm files baseUrl => { scormFiles := files, baseUrl := baseUrl }
  | .clearScorm => { st with scormFiles := [] }

/-- Spec-side restatement of the documented lookup order: try the four
variants exactly in the order (exact, stripped, baseDir-prefixed,
baseDir-prefixed-stripped) and stop at the first hit. -/
def resolveSpecOrder (st : SWState) (filePath : String) : Option Bytes :=
  match lookupFile st.scormFiles filePath with
  | some d => some d
  | none =>
    match lookupFile st.scormFiles (stripLeadingSlashes filePath) with
    | some d => some d
    | none =>
      match lookupFile st.scormFiles (st.baseUrl ++ filePath) with
      | some d => some d
      | none => lookupFile st.scormFiles (st.baseUrl ++ stripLeadingSlashes filePath)

end ScormSW

namespace ScormApi

/-- Observable result of one shim call: the returned string and the number
of `onComplete` (external completion) signals emitted during the call. -/
structure CallResult where
  ret : String
  completeSignals : Nat
deriving DecidableEq

/-- SCORM 1.2 `LMSSetValue` of the shim in `ContentViewer.tsx`:
signals completion when the legacy lesson-status element is set to
`completed` or `passed`, always returns `"true"`. -/
def LMSSetValue (el val : String) : CallResult :=
  { ret := "true",
    completeSignals :=
      if el = "cmi.core.lesson_status" ∧ (val = "completed" ∨ val = "passed")
      then 1 else 0 }

/-- SCORM 2004 `SetValue` of the shim: two independent status checks. -/
def SetValue (el val : String) : CallResult :=
  { ret := "true",
    completeSignals :=
      (if el = "cmi.completion_status" ∧ val = "completed" then 1 else 0) +
      (if el = "cmi.success_status" ∧ (val = "passed" ∨ val = "failed")
       then 1 else 0) }

/-- SCORM 1.2 `LMSFinish`: calls `onComplete` then returns `"true"`. -/
def LMSFinish : CallResult := { ret := "true", completeSignals := 1 }

/-- SCORM 2004 `Terminate`: calls `onComplete` then returns `"true"`. -/
def Terminate : CallResult := { ret := "true", completeSignals := 1 }

/-- SCORM 1.2 `LMSGetValue`: returns the empty string, no signal. -/
def LMSGetValue (_el : String) : CallResult := { ret := "", completeSignals := 0 }

/-- SCORM 1.2 `LMSCommit`: returns `"true"`, no signal. -/
def LMSCommit : CallResult := { ret := "true", completeSignals := 0 }

/-- The completion-trigger condition exactly as the specification states it:
for the legacy element only the value `completed` triggers. -/
abbrev specTrigger12 (el val : String) : Prop :=
  el = "cmi.core.lesson_status" ∧ val = "completed"

/-- The completion-trigger condition as the code implements it. -/
abbrev codeTrigger12 (el val : String) : Prop :=
  el = "cmi.core.lesson_status" ∧ (val = "completed" ∨ val = "passed")

/-- 2004-generation trigger condition (spec and code agree here). -/
abbrev trigger2004 (el val : String) : Prop :=
  (el = "cmi.completion_status" ∧ val = "completed") ∨
  (el = "cmi.success_status" ∧ (val = "passed" ∨ val = "failed"))

/-- One shim invocation, for reasoning about call sequences. -/
inductive ApiCall where
  | lmsSetValue (el val : String)
  | lmsFinish
  | lmsGetValue (el : String)
  | lmsCommit
  | setValue2004 (el val : String)
  | terminate2004

/-- Dispatch one call to the corresponding shim entry point. -/
def runCall : ApiCall → CallResult
  | .lmsSetValue el val => LMSSetValue el val
  | .lmsFinish => LMSFinish
  | .lmsGetValue el => LMSGetValue el
  | .lmsCommit => LMSCommit
  | .setValue2004 el val => SetValue el val
  | .terminate2004 => Terminate

/-- Total number of external completion signals emitted by a call sequence. -/
def sessionSignals (calls : List ApiCall) : Nat :=
  (calls.map (fun c => (runCall c).completeSignals)).sum

end ScormApi

namespace StrUtil

/-- `k` occurs at the start of `s` (JS `startsWith` on character lists). -/
def isPrefOf : List Char → List Char → Bool
  | [], _ => true
  | _ :: _, [] => false
  | a :: as, b :: bs => a == b && isPrefOf as bs

/-- `s.includes(k)` on character lists: `k` occurs somewhere in `s`. -/
def strIncludes : List Char → List Char → Bool
  | [], k => isPrefOf k []
  | c :: s, k => isPrefOf k (c :: s) || strIncludes s k

/-- `s.endsWith(k)` on character lists. -/
def endsWithL (s k : List Char) : Bool :=
  isPrefOf k.reverse s.reverse

/-- `s.toLowerCase()` on character lists. -/
def lowerL (s : List Char) : List Char := s.map Char.toLower

/-- `s.trim()` on character lists. -/
def trimL (s : List Char) : List Char :=
  ((s.dropWhile Char.isWhitespace).reverse.dropWhile Char.isWhitespace).reverse

theorem isPrefOf_iff (k s : List Char) :
    isPrefOf k s = true ↔ ∃ t, s = k ++ t := by
  induction k generalizing s with
  | nil => simp [isPrefOf]
  | cons a as ih =>
    cases s with
    | nil => simp [isPrefOf]
    | cons b bs =>
      simp only [isPrefOf, Bool.and_eq_true, beq_iff_eq, ih, List.cons_append,
        List.cons.injEq]
      constructor
      · rintro ⟨rfl, t, rfl⟩; exact ⟨t, rfl, rfl⟩
      · rintro ⟨t, rfl, rfl⟩; exact ⟨rfl, t, rfl⟩

theorem strIncludes_iff (s k : List Char) :
    strIncludes s k = true ↔ ∃ p q, s = p ++ k ++ q := by
  induction s with
  | nil =>
    simp only [strIncludes, isPrefOf_iff]
    constructor
    · rintro ⟨t, ht⟩; exact ⟨[], t, by simpa using ht⟩
    · rintro ⟨p, q, h⟩
      rcases List.append_eq_nil.mp (List.append_eq_nil.mp h.symm).1 with ⟨h1, h2⟩
      exact ⟨q, by simp [h1, h2, ← (List.append_eq_nil.mp h.symm).2]⟩
  | cons c s ih =>
    simp only [strIncludes, Bool.or_eq_true, isPrefOf_iff, ih]
    constructor
    · rintro (⟨t, ht⟩ | ⟨p, q, rfl⟩)
      · exact ⟨[], t, by simpa using ht⟩
      · exact ⟨c :: p, q, by simp⟩
    · rintro ⟨p, q, hpq⟩
      cases p with
      | nil => exact Or.inl ⟨q, by simpa using hpq⟩
      | cons x p =>
        rcases List.cons.injEq .. ▸ hpq with ⟨rfl, hrest⟩
        exact Or.inr ⟨p, q, by simpa using hrest⟩

theorem strIncludes_of_isPrefOf {k s : List Char} (h : isPrefOf k s = true) :
    strIncludes s k = true := by
  rcases (isPrefOf_iff k s).mp h with ⟨t, rfl⟩
  exact (strIncludes_iff _ _).mpr ⟨[], t, by simp⟩

theorem strIncludes_refl (k : List Char) : strIncludes k k = true :=
  strIncludes_of_isPrefOf (by rw [isPrefOf_iff]; exact ⟨[], by simp⟩)

theorem strIncludes_of_endsWithL {s k : List Char} (h : endsWithL s k = true) :
    strIncludes s k = true := by
  rcases (isPrefOf_iff _ _).mp h with ⟨t, ht⟩
  have : s = t.reverse ++ k := by
    have := congrArg List.reverse ht
    simpa using this
  exact (strIncludes_iff _ _).mpr ⟨t.reverse, [], by simp [this]⟩

theorem strIncludes_trans {s u k : List Char} (h1 : strIncludes s u = true)
    (h2 : strIncludes u k = true) : strIncludes s k = true := by
  rcases (strIncludes_iff s u).mp h1 with ⟨p, q, rfl⟩
  rcases (strIncludes_iff u k).mp h2 with ⟨p', q', rfl⟩
  exact (strIncludes_iff _ _).mpr ⟨p ++ p', q' ++ q, by simp⟩

theorem isPrefOf_append_space (k : List Char) (hk : ' ' ∉ k) :
    ∀ (u v : List Char), isPrefOf k (u ++ ' ' :: v) = isPrefOf k u := by
  induction k with
  | nil => intro u v; simp [isPrefOf]
  | cons c k' ih =>
    intro u v
    cases u with
    | nil =>
      have hc : c ≠ ' ' := fun h => hk (h ▸ List.mem_cons_self c k')
      simp [isPrefOf, beq_iff_eq, hc]
    | cons b u' =>
      have hk' : ' ' ∉ k' := fun h => hk (List.mem_cons_of_mem c h)
      simp [isPrefOf, ih hk' u' v]

theorem strIncludes_append_space {k : List Char} (hk : ' ' ∉ k) (hne : k ≠ [])
    (u v : List Char) :
    strIncludes (u ++ ' ' :: v) k = (strIncludes u k || strIncludes v k) := by
  induction u with
  | nil =>
    rcases k with _ | ⟨c, k'⟩
    · exact absurd rfl hne
    · have hc : c ≠ ' ' := fun h => hk (h ▸ List.mem_cons_self c k')
      simp [strIncludes, isPrefOf, beq_iff_eq, hc]
  | cons b u' ih =>
    have hstep : isPrefOf k ((b :: u') ++ ' ' :: v) = isPrefOf k (b :: u') :=
      isPrefOf_append_space k hk (b :: u') v
    simp only [List.cons_append] at hstep ⊢
    simp only [strIncludes, hstep, ih, Bool.or_assoc]

end StrUtil

namespace EntryResolution

open StrUtil

/-- `/launchpage\.html?$/i.test(p)`. -/
def isLaunchPage (p : String) : Bool :=
  endsWithL (lowerL p.data) "launchpage.html".data ||
  endsWithL (lowerL p.data) "launchpage.htm".data

/-- `/\.html?$/i.test(f)`. -/
def isHtmlFile (f : String) : Bool :=
  endsWithL (lowerL f.data) ".html".data || endsWithL (lowerL f.data) ".htm".data

/-- `resourcePath.includes('/') ? resourcePath.substring(0,
resourcePath.lastIndexOf('/') + 1) : ''`. -/
def dirOf (p : String) : String :=
  if p.data.contains '/'
  then ⟨(p.data.reverse.dropWhile (fun c => c ≠ '/')).reverse⟩
  else ""

/-- `hasFile(p) = !!p && fileMap.has(p)`; the file map holds exactly the
archive's non-directory entries. -/
def hasFile (allFiles : List String) (p : String) : Bool :=
  ¬(p = "") && allFiles.contains p

/-- Failures thrown by `loadScormContent` before any content is shown. -/
inductive LoadError where
  | contentFileNotFound
deriving DecidableEq

/-- The entry-path adjustment of `loadScormContent`: a missing or
launcher-patterned declared entry is replaced by `index.html` / `index.htm`
in the resource directory, else the first other HTML file under that
directory; when nothing matches the declared path is kept unchanged. -/
def resolveEntry (allFiles : List String) (href : Option String) :
    Except LoadError String :=
  match href with
  | none => .error .contentFileNotFound
  | some h =>
    if h = "" then .error .contentFileNotFound
    else
      let resourcePath := h
      let resourceDir := dirOf resourcePath
      if !hasFile allFiles resourcePath || isLaunchPage resourcePath then
        let candidates := [resourceDir ++ "index.html", resourceDir ++ "index.htm"]
        let chosen : Option String :=
          match candidates.find? (hasFile allFiles) with
          | some c => some c
          | none =>
            (allFiles.filter (fun f =>
              isPrefOf resourceDir.data f.data && isHtmlFile f &&
              !isLaunchPage f)).head?
        match chosen with
        | some c => .ok c
        | none => .ok resourcePath
      else .ok resourcePath

end EntryResolution

namespace Navigation

open StrUtil

/-- The attributes of a candidate element that `autoClickElements` reads:
text, class, id, aria-label, title, `data-acc-text`, tag name, and screen
position (`rect.right` against the viewport width, in tenths to keep the
`0.7` threshold exact). `visible` is the outcome of `isElementVisible` and
`role` the `role` attribute, used by the candidate filters. -/
structure DomElement where
  textContent : String
  className : String
  id : String
  ariaLabel : String
  title : String
  dataAccText : String
  tagName : String
  rectRight : Nat
  viewportWidth : Nat
  visible : Bool
  role : String
deriving DecidableEq

/-- The multilingual navigation vocabulary of `autoClickElements`. -/
def navigationKeywords : List String :=
  ["next", "continue", "forward", "proceed", "suivant", "suivante",
   "weiter", "siguiente", "próximo", "avançar", "submit", "start",
   "begin", "play", "go", "advance", "onward", "arrow-right", "→", "►"]

/-- The exact-text bonus test of `scoreElement`: `text === keyword ||
text.includes(' keyword ') || text.startsWith(keyword) ||
text.endsWith(keyword)`. -/
def exactTextMatch (text k : List Char) : Bool :=
  text == k || strIncludes text (' ' :: (k ++ [' '])) ||
  isPrefOf k text || endsWithL text k

/-- Contribution of one keyword: `+10` when it occurs in the combined
attribute blob, `+20` more on an exact text match. -/
def keywordBonus (text allText k : List Char) : Nat :=
  if strIncludes allText k then
    10 + (if exactTextMatch text k then 20 else 0)
  else 0

/-- The lower-cased, trimmed visible text of an element. -/
def textOf (el : DomElement) : List Char := trimL (lowerL el.textContent.data)

/-- The space-joined attribute blob that follows the text in
`${text} ${className} ${id} ${ariaLabel} ${title} ${dataText}`. -/
def attrBlob (el : DomElement) : List Char :=
  lowerL el.className.data ++ ' ' :: (lowerL el.id.data ++ ' ' ::
    (lowerL el.ariaLabel.data ++ ' ' :: (lowerL el.title.data ++ ' ' ::
      lowerL el.dataAccText.data)))

/-- `allText` of `scoreElement`. -/
def allTextOf (el : DomElement) : List Char :=
  textOf el ++ ' ' :: attrBlob el

/-- Sum of the keyword contributions over the whole vocabulary. -/
def keywordScore (text allText : List Char) : Nat :=
  (navigationKeywords.map (fun kw => keywordBonus text allText kw.data)).sum

/-- The non-keyword bonuses of `scoreElement`: native button/link tag,
`nav`/`btn` class hints, and right-of-center position. -/
def staticBonus (el : DomElement) : Nat :=
  (if el.tagName = "BUTTON" ∨ el.tagName = "A" then 5 else 0) +
  (if strIncludes (lowerL el.className.data) "nav".data then 5 else 0) +
  (if strIncludes (lowerL el.className.data) "btn".data then 3 else 0) +
  (if 10 * el.rectRight > 7 * el.viewportWidth then 5 else 0)

/-- `scoreElement` of `autoClickElements` in `ContentViewer.tsx`. -/
def scoreElement (el : DomElement) : Nat :=
  keywordScore (textOf el) (allTextOf el) + staticBonus el

/-- First element of maximal score: the head of the stable descending sort
`scored.sort((a, b) => b.score - a.score)` performed by the code. -/
def pickBest : List DomElement → Option DomElement
  | [] => none
  | x :: xs =>
    some (xs.foldl (fun best el =>
      if scoreElement el > scoreElement best then el else best) x)

/-- The fallback filter: `el.tagName === 'BUTTON' || el.tagName === 'A' ||
el.getAttribute('role') === 'button'`. -/
def isButtonLike (el : DomElement) : Bool :=
  el.tagName = "BUTTON" || el.tagName = "A" || el.role = "button"

/-- One invocation of `autoClickElements` on the candidate list gathered
from the document: filter to visible elements, keep positive scores, click
the best match, else fall back to the last visible button-like element. -/
def autoClickTarget (doc : List DomElement) : Option DomElement :=
  let visibleElements := doc.filter (fun el => el.visible)
  if visibleElements.isEmpty then none
  else
    let scored := visibleElements.filter (fun el => scoreElement el > 0)
    if scored.isEmpty then (visibleElements.filter isButtonLike).getLast?
    else pickBest scored

/-- Activation events dispatched by one scheduled attempt: the function
returns immediately when not recording, otherwise it clicks the selected
target (one activation) when one exists. -/
def attemptActivations (isRecording : Bool) (doc : List DomElement) : Nat :=
  if !isRecording then 0
  else match autoClickTarget doc with
    | some _ => 1
    | none => 0

/-- `n` scheduled attempts against the same rendered document; the engine
keeps no state between attempts. -/
def runAttempts (isRecording : Bool) (doc : List DomElement) : Nat → Nat
  | 0 => 0
  | n + 1 => runAttempts isRecording doc n + attemptActivations isRecording doc

end Navigation

namespace Player

/-- Overall completion status kept by the `ScormPlayer` page. -/
inductive CompletionStatus where
  | incomplete
  | completed
  | passed
  | failed
deriving DecidableEq

/-- The orchestrator state relevant to sequencing: active item index,
per-item progress percent, overall status, and the recording flag. -/
structure PlayerState where
  currentSco : Nat
  progress : Nat
  completionStatus : CompletionStatus
  isRecording : Bool
deriving DecidableEq

/-- Side-effect requests the orchestrator sends to other components. -/
inductive PlayerCmd where
  | stopRecording
deriving DecidableEq

/-- `handlePackageLoad`: reset to item 0, progress 0, incomplete. -/
def handlePackageLoad (s : PlayerState) : PlayerState :=
  { s with currentSco := 0, progress := 0, completionStatus := .incomplete }

/-- `handleProgressUpdate`: store the new progress and mark completed at
100 or more. -/
def handleProgressUpdate (s : PlayerState) (newProgress : Nat) : PlayerState :=
  let s' : PlayerState := { s with progress := newProgress }
  if newProgress ≥ 100 then { s' with completionStatus := .completed } else s'

/-- The auto-advance effect of `ScormPlayer`: once per-item progress hits
100, move to the next item (index clamped to the last one) and reset
progress, or — on the last item — mark overall completion and, when a
recording is active, request the recording stop. `numScos` is
`scormPackage.scos.length`. -/
def autoAdvance (numScos : Nat) (s : PlayerState) : PlayerState × List PlayerCmd :=
  if numScos = 0 then (s, [])
  else if s.progress < 100 then (s, [])
  else if !(decide (s.currentSco ≥ numScos - 1)) then
    ({ s with currentSco := min (s.currentSco + 1) (numScos - 1), progress := 0 }, [])
  else
    ({ s with completionStatus := .completed },
     if s.isRecording then [.stopRecording] else [])

end Player

namespace Recording

/-- One buffered media chunk produced by the recorder. -/
abbrev Chunk := List Nat

/-- One command-line argument handed to the transcoder: a literal flag or
a stringified number (trim seconds). -/
inductive FFArg where
  | flag (s : String)
  | num (n : Nat)
deriving DecidableEq

/-- What `downloadRecording` ends in. -/
inductive Outcome where
  | noRecording
  | webmDownload (chunks : List Chunk)
  | mp4Preview
  | conversionFailed
deriving DecidableEq

/-- Observable result of one `downloadRecording` call: the argument lists
handed to the transcoder, the final outcome, and the chunk buffer after the
call (the code never mutates `recordedChunks.current`). -/
structure ConvertResult where
  execCalls : List (List FFArg)
  outcome : Outcome
  chunksAfter : List Chunk
deriving DecidableEq

/-- The `-ss` / `-to` arguments added when the requested trim window is
narrower than the full recording. -/
def trimArgs (trimStart trimEnd recordingTime : Nat) : List FFArg :=
  if trimStart > 0 ∨ trimEnd < recordingTime then
    [.flag "-ss", .num trimStart] ++
      (if trimEnd > trimStart then [.flag "-to", .num trimEnd] else [])
  else []

/-- The first transcode command: H.264 video plus AAC audio. -/
def ffmpegArgs (trimStart trimEnd recordingTime : Nat) : List FFArg :=
  [.flag "-i", .flag "input.webm"] ++ trimArgs trimStart trimEnd recordingTime ++
  [.flag "-c:v", .flag "libx264", .flag "-preset", .flag "veryfast",
   .flag "-crf", .flag "23", .flag "-pix_fmt", .flag "yuv420p",
   .flag "-c:a", .flag "aac", .flag "-b:a", .flag "128k",
   .flag "-movflags", .flag "+faststart", .flag "output.mp4"]

/-- The retry command built in the `catch`: same video settings, audio
disabled via `-an`. -/
def ffmpegArgsNoAudio (trimStart trimEnd recordingTime : Nat) : List FFArg :=
  [.flag "-i", .flag "input.webm"] ++ trimArgs trimStart trimEnd recordingTime ++
  [.flag "-c:v", .flag "libx264", .flag "-preset", .flag "veryfast",
   .flag "-crf", .flag "23", .flag "-pix_fmt", .flag "yuv420p",
   .flag "-an", .flag "-movflags", .flag "+faststart", .flag "output.mp4"]

/-- `downloadRecording` of `RecordingControls`, with the transcoder's
behaviour supplied as oracles: whether the engine loads, and whether each
`exec` call succeeds. -/
def downloadRecording (recordedChunks : List Chunk)
    (ffmpegLoads firstExecSucceeds retryExecSucceeds : Bool)
    (trimStart trimEnd recordingTime : Nat) : ConvertResult :=
  if recordedChunks.isEmpty then
    { execCalls := [], outcome := .noRecording, chunksAfter := recordedChunks }
  else if !ffmpegLoads then
    { execCalls := [], outcome := .webmDownload recordedChunks,
      chunksAfter := recordedChunks }
  else
    let args := ffmpegArgs trimStart trimEnd recordingTime
    if firstExecSucceeds then
      { execCalls := [args], outcome := .mp4Preview, chunksAfter := recordedChunks }
    else
      let retryArgs := ffmpegArgsNoAudio trimStart trimEnd recordingTime
      if retryExecSucceeds then
        { execCalls := [args, retryArgs], outcome := .mp4Preview,
          chunksAfter := recordedChunks }
      else
        { execCalls := [args, retryArgs], outcome := .conversionFailed,
          chunksAfter := recordedChunks }

end Recording

section C1

open ScormSW

/-- C1: for every requested path and loaded archive, `resolve` returns the
bytes of the first of the four documented path variants (exact, leading
slashes stripped, baseDir-prefixed, baseDir-prefixed stripped) that is a
key of the archive index, and returns the 404 result exactly when none of
the four variants is a key. -/
theorem resolve_first_variant_order (st : SWState) (p : String) :
    resolve st p = resolveSpecOrder st p ∧
    (resolve st p = none ↔
      ∀ v ∈ pathVariations st p, lookupFile st.scormFiles v = none) := by
  unfold resolve resolveSpecOrder pathVariations
  cases h0 : lookupFile st.scormFiles p <;>
    cases h1 : lookupFile st.scormFiles (stripLeadingSlashes p) <;>
      cases h2 : lookupFile st.scormFiles (st.baseUrl ++ p) <;>
        cases h3 : lookupFile st.scormFiles (st.baseUrl ++ stripLeadingSlashes p) <;>
          simp [List.findSome?_cons, h0, h1, h2, h3]

/-- C1 witness: a concrete archive where only the baseDir-prefixed stripped
variant is a key, and a concrete miss. -/
theorem resolve_first_variant_order_witness :
    resolve ⟨[("a/x.html", [1])], "a/"⟩ "nope.html" = none ∧
    resolve ⟨[("a/x.html", [1])], "a/"⟩ "/x.html" = some [1] :=
  ⟨(resolve_first_variant_order ⟨[("a/x.html", [1])], "a/"⟩ "nope.html").2.mpr
      (by decide),
   by rw [(resolve_first_variant_order ⟨[("a/x.html", [1])], "a/"⟩ "/x.html").1]; rfl⟩

end C1

section C8

open ScormSW

/-- C8: after the server processes a clear message, every subsequent
`resolve` call returns the 404 result for every path, no matter which
archive was initialized just before. -/
theorem clear_drops_every_entry (st : SWState) (files : List (String × Bytes))
    (base : String) (p : String) :
    resolve (handleMessage (handleMessage st (.initScorm files base)) .clearScorm) p
      = none := by
  simp [handleMessage, resolve, lookupFile, pathVariations, List.findSome?_cons]

end C8

section C2

open ScormApi

/-- C2 counterexample: the legacy shim also emits a completion signal for
`LMSSetValue("cmi.core.lesson_status", "passed")`, a pair for which the
claim (legacy status triggers only on `completed`) predicts no signal. -/
theorem lmsSetValue_passed_signal_counterexample :
    (LMSSetValue "cmi.core.lesson_status" "passed").completeSignals = 1 ∧
    ¬ specTrigger12 "cmi.core.lesson_status" "passed" := by
  constructor
  · rfl
  · intro h
    exact absurd h.2 (by decide)

/-- C2 (amended): one set-value call returns `"true"` and emits exactly one
completion signal iff the element/value pair is a completion trigger, where
the legacy lesson-status element triggers on `completed` or `passed` and
the 2004 generation triggers on `completion_status=completed` or
`success_status=passed/failed`; every other pair emits no signal. -/
theorem setValue_completion_signals (el val : String) :
    (LMSSetValue el val).ret = "true" ∧ (SetValue el val).ret = "true" ∧
    ((LMSSetValue el val).completeSignals = 1 ↔ codeTrigger12 el val) ∧
    (¬ codeTrigger12 el val → (LMSSetValue el val).completeSignals = 0) ∧
    ((SetValue el val).completeSignals = 1 ↔ trigger2004 el val) ∧
    (¬ trigger2004 el val → (SetValue el val).completeSignals = 0) := by
  have hexcl : ¬ (el = "cmi.completion_status" ∧ el = "cmi.success_status") := by
    rintro ⟨rfl, h⟩
    exact absurd h (by decide)
  refine ⟨rfl, rfl, ?_, ?_, ?_, ?_⟩
  · by_cases hP : el = "cmi.core.lesson_status" ∧ (val = "completed" ∨ val = "passed") <;>
      simp [LMSSetValue, codeTrigger12, hP]
  · intro hP
    simp only [codeTrigger12] at hP
    simp [LMSSetValue, hP]
  · by_cases hA : el = "cmi.completion_status" ∧ val = "completed" <;>
      by_cases hB : el = "cmi.success_status" ∧ (val = "passed" ∨ val = "failed")
    · exact absurd ⟨hA.1, hB.1⟩ hexcl
    all_goals simp [SetValue, trigger2004, hA, hB]
  · intro hP
    simp only [trigger2004, not_or] at hP
    simp [SetValue, hP.1, hP.2]

/-- C2 witness: concrete triggering and non-triggering calls. -/
theorem setValue_completion_signals_witness :
    (LMSSetValue "cmi.core.lesson_status" "completed").completeSignals = 1 ∧
    (SetValue "cmi.success_status" "failed").completeSignals = 1 ∧
    (LMSSetValue "cmi.score.raw" "80").completeSignals = 0 ∧
    (SetValue "cmi.completion_status" "incomplete").completeSignals = 0 := by
  refine ⟨?_, ?_, ?_, ?_⟩
  · exact (setValue_completion_signals "cmi.core.lesson_status" "completed").2.2.1.mpr
      ⟨rfl, Or.inl rfl⟩
  · exact (setValue_completion_signals "cmi.success_status" "failed").2.2.2.2.1.mpr
      (Or.inr ⟨rfl, Or.inr rfl⟩)
  · exact (setValue_completion_signals "cmi.score.raw" "80").2.2.2.1 (by decide)
  · exact (setValue_completion_signals "cmi.completion_status" "incomplete").2.2.2.2.2
      (by decide)

end C2

section C9

open ScormApi

/-- C9: `LMSFinish` / `Terminate` return `"true"` and always emit exactly
one completion signal on top of whatever the preceding calls emitted — in
particular a session that never wrote any completion status still gets a
completion signal from termination. -/
theorem finish_always_signals :
    (runCall .lmsFinish).ret = "true" ∧ (runCall .terminate2004).ret = "true" ∧
    ∀ pre : List ApiCall,
      sessionSignals (pre ++ [.lmsFinish]) = sessionSignals pre + 1 ∧
      sessionSignals (pre ++ [.terminate2004]) = sessionSignals pre + 1 := by
  refine ⟨rfl, rfl, fun pre => ⟨?_, ?_⟩⟩ <;>
    simp [sessionSignals, runCall, LMSFinish, Terminate]

end C9

section C3

open EntryResolution StrUtil

/-- C3 counterexample: a declared entry that is missing from the archive
and has no `index.html`/`index.htm`/other-HTML candidate in its directory
is kept unchanged and loading proceeds with it — no load error is raised,
contrary to the claim that resolution fails in that case. -/
theorem resolveEntry_keeps_unresolved_entry_counterexample :
    hasFile ["images/logo.png"] "lesson/start.html" = false ∧
    hasFile ["images/logo.png"] "lesson/index.html" = false ∧
    hasFile ["images/logo.png"] "lesson/index.htm" = false ∧
    isHtmlFile "images/logo.png" = false ∧
    resolveEntry ["images/logo.png"] (some "lesson/start.html") =
      .ok "lesson/start.html" :=
  ⟨by decide, by decide, by decide, by decide, rfl⟩

/-- C3 (amended): a declared entry that is present and not
launcher-patterned is used unchanged; a missing or launcher-patterned entry
is replaced by `index.html`, then `index.htm` in the resource directory,
then the first other non-launcher HTML file under that directory; when no
candidate matches the declared entry is kept unchanged and loading proceeds
with it (a load error is thrown only when the resource declares no entry
path at all). -/
theorem resolveEntry_fallback_policy (allFiles : List String) (h : String)
    (hne : h ≠ "") :
    (resolveEntry allFiles none = .error .contentFileNotFound) ∧
    (hasFile allFiles h = true → isLaunchPage h = false →
      resolveEntry allFiles (some h) = .ok h) ∧
    (hasFile allFiles h = false ∨ isLaunchPage h = true →
      (hasFile allFiles (dirOf h ++ "index.html") = true →
        resolveEntry allFiles (some h) = .ok (dirOf h ++ "index.html")) ∧
      (hasFile allFiles (dirOf h ++ "index.html") = false →
        hasFile allFiles (dirOf h ++ "index.htm") = true →
        resolveEntry allFiles (some h) = .ok (dirOf h ++ "index.htm")) ∧
      (∀ f, hasFile allFiles (dirOf h ++ "index.html") = false →
        hasFile allFiles (dirOf h ++ "index.htm") = false →
        (allFiles.filter (fun g =>
          isPrefOf (dirOf h).data g.data && isHtmlFile g &&
            !isLaunchPage g)).head? = some f →
        resolveEntry allFiles (some h) = .ok f) ∧
      (hasFile allFiles (dirOf h ++ "index.html") = false →
        hasFile allFiles (dirOf h ++ "index.htm") = false →
        (allFiles.filter (fun g =>
          isPrefOf (dirOf h).data g.data && isHtmlFile g &&
            !isLaunchPage g)).head? = none →
        resolveEntry allFiles (some h) = .ok h)) := by
  refine ⟨rfl, ?_, ?_⟩
  · intro hhas hlp
    simp [resolveEntry, hne, hhas, hlp]
  · intro hmiss
    have hcond : (!hasFile allFiles h || isLaunchPage h) = true := by
      rcases hmiss with hm | hm <;> simp [hm]
    refine ⟨?_, ?_, ?_, ?_⟩
    · intro h1
      simp [resolveEntry, hne, hcond, List.find?_cons, h1]
    · intro h1 h2
      simp [resolveEntry, hne, hcond, List.find?_cons, h1, h2]
    · intro f h1 h2 h3
      simp [resolveEntry, hne, hcond, List.find?_cons, h1, h2, h3]
    · intro h1 h2 h3
      simp [resolveEntry, hne, hcond, List.find?_cons, h1, h2, h3]

/-- C3 witness: the two-item scenario — a launcher entry resolves to the
`index.html` sibling, a direct `lesson.html` entry is used unchanged. -/
theorem resolveEntry_fallback_policy_witness :
    resolveEntry ["shared/launchpage.html", "shared/index.html", "lesson.html"]
      (some "shared/launchpage.html") = .ok "shared/index.html" ∧
    resolveEntry ["shared/launchpage.html", "shared/index.html", "lesson.html"]
      (some "lesson.html") = .ok "lesson.html" := by
  constructor
  · have hp := ((resolveEntry_fallback_policy
      ["shared/launchpage.html", "shared/index.html", "lesson.html"]
      "shared/launchpage.html" (by decide)).2.2 (Or.inr (by decide))).1 (by decide)
    exact hp.trans (by rfl)
  · exact (resolveEntry_fallback_policy
      ["shared/launchpage.html", "shared/index.html", "lesson.html"]
      "lesson.html" (by decide)).2.1 (by decide) (by decide)

end C3

section C5

open Player

/-- C5 counterexample: on the last item with full progress but no active
recording, the orchestrator marks overall completion yet issues no
stop-recording request, whereas the claim says the pipeline stop is always
requested in that case. -/
theorem autoAdvance_no_stop_request_counterexample :
    (autoAdvance 1 ⟨0, 100, .incomplete, false⟩).1.completionStatus = .completed ∧
    (autoAdvance 1 ⟨0, 100, .incomplete, false⟩).2 = [] := by
  decide

/-- C5 (amended): a package load starts at item 0 with progress 0 and
status incomplete; when progress reaches 100 on a non-last item the index
advances by one and progress resets with no side-effect request; on the
last item the status becomes completed, index and progress stay, and the
stop-recording request is issued exactly when a recording is active. -/
theorem orchestrator_sequencing (N : Nat) (s : PlayerState) :
    ((handlePackageLoad s).currentSco = 0 ∧ (handlePackageLoad s).progress = 0 ∧
      (handlePackageLoad s).completionStatus = .incomplete) ∧
    (100 ≤ s.progress → s.currentSco < N - 1 →
      (autoAdvance N s).1.currentSco = s.currentSco + 1 ∧
      (autoAdvance N s).1.progress = 0 ∧
      (autoAdvance N s).2 = []) ∧
    (100 ≤ s.progress → 1 ≤ N → N - 1 ≤ s.currentSco →
      (autoAdvance N s).1.completionStatus = .completed ∧
      (autoAdvance N s).1.currentSco = s.currentSco ∧
      (autoAdvance N s).1.progress = s.progress ∧
      (autoAdvance N s).2 = (if s.isRecording then [.stopRecording] else [])) := by
  refine ⟨⟨rfl, rfl, rfl⟩, ?_, ?_⟩
  · intro hp hi
    have hN : ¬ N = 0 := by omega
    have hnp : ¬ s.progress < 100 := by omega
    have hge : ¬ s.currentSco ≥ N - 1 := by omega
    simp only [autoAdvance, hN, hnp, hge, if_false, decide_eq_true_eq,
      decide_eq_false_iff_not, if_true, Bool.not_false, if_neg, ite_false]
    simp [hN, hnp, hge]
    omega
  · intro hp hN hge
    have hN0 : ¬ N = 0 := by omega
    have hnp : ¬ s.progress < 100 := by omega
    have hge' : s.currentSco ≥ N - 1 := hge
    simp [autoAdvance, hN0, hnp, hge']

/-- C5 witness: a concrete non-last advance and a concrete last-item stop. -/
theorem orchestrator_sequencing_witness :
    (autoAdvance 2 ⟨0, 100, .incomplete, true⟩).1.currentSco = 1 ∧
    (autoAdvance 1 ⟨0, 100, .incomplete, true⟩).2 = [.stopRecording] := by
  constructor
  · exact ((orchestrator_sequencing 2 ⟨0, 100, .incomplete, true⟩).2.1
      (by decide) (by decide)).1
  · exact (((orchestrator_sequencing 1 ⟨0, 100, .incomplete, true⟩).2.2
      (by decide) (by decide) (by decide)).2.2.2).trans (by decide)

end C5

section C10

open Player

/-- C10: with N ≥ 1 items the active index stays within [0, N-1]: a package
load resets it to 0, a progress update never moves it, and the
completion-driven advance clamps the incremented index to N-1, so
completing the last item never moves the index out of bounds. -/
theorem currentSco_stays_in_bounds (N : Nat) (s : PlayerState) (hN : 1 ≤ N) :
    (handlePackageLoad s).currentSco ≤ N - 1 ∧
    (∀ p, (handleProgressUpdate s p).currentSco = s.currentSco) ∧
    (s.currentSco ≤ N - 1 → (autoAdvance N s).1.currentSco ≤ N - 1) := by
  refine ⟨by simp [handlePackageLoad], fun p => ?_, fun hs => ?_⟩
  · unfold handleProgressUpdate
    split <;> rfl
  · unfold autoAdvance
    split
    · exact hs
    · split
      · exact hs
      · split
        · simp only; omega
        · exact hs

/-- C10 witness: load and last-item advance at N = 1 both stay at index
0. -/
theorem currentSco_stays_in_bounds_witness :
    (handlePackageLoad ⟨5, 7, .passed, true⟩).currentSco ≤ 0 ∧
    (autoAdvance 1 ⟨0, 100, .incomplete, true⟩).1.currentSco ≤ 0 := by
  constructor
  · exact (currentSco_stays_in_bounds 1 ⟨5, 7, .passed, true⟩ (by decide)).1
  · exact (currentSco_stays_in_bounds 1 ⟨0, 100, .incomplete, true⟩
      (by decide)).2.2 (by decide)

end C10

section C7

open Recording

/-- Every trim argument is one of the `-ss` / `-to` flags or a number. -/
theorem trimArgs_shape (ts te rt : Nat) :
    ∀ x ∈ trimArgs ts te rt,
      x = .flag "-ss" ∨ x = .flag "-to" ∨ ∃ n, x = .num n := by
  intro x hx
  unfold trimArgs at hx
  split at hx
  · split at hx <;> simp only [List.mem_append, List.mem_cons,
      List.not_mem_nil, or_false] at hx
    · rcases hx with (rfl | rfl) | (rfl | rfl)
      · exact Or.inl rfl
      · exact Or.inr (Or.inr ⟨ts, rfl⟩)
      · exact Or.inr (Or.inl rfl)
      · exact Or.inr (Or.inr ⟨te, rfl⟩)
    · rcases hx with rfl | rfl
      · exact Or.inl rfl
      · exact Or.inr (Or.inr ⟨ts, rfl⟩)
  · exact absurd hx (List.not_mem_nil x)

/-- C7: for a non-empty recording, a transcoder that fails to load makes
the recorded chunks available as an untranscoded raw-clip download with no
transcode attempted; a failing transcode is retried exactly once, with the
retry command dropping the AAC audio arguments in favour of `-an`; only
after the retry fails is failure reported; and on every path the recorded
chunk sequence is preserved untouched. -/
theorem downloadRecording_failure_paths (chunks : List Chunk)
    (ffmpegLoads firstExecSucceeds retryExecSucceeds : Bool)
    (ts te rt : Nat) (hne : chunks ≠ []) :
    (ffmpegLoads = false →
      (downloadRecording chunks ffmpegLoads firstExecSucceeds retryExecSucceeds
        ts te rt).outcome = .webmDownload chunks ∧
      (downloadRecording chunks ffmpegLoads firstExecSucceeds retryExecSucceeds
        ts te rt).execCalls = []) ∧
    (ffmpegLoads = true → firstExecSucceeds = true →
      (downloadRecording chunks ffmpegLoads firstExecSucceeds retryExecSucceeds
        ts te rt).execCalls = [ffmpegArgs ts te rt] ∧
      (downloadRecording chunks ffmpegLoads firstExecSucceeds retryExecSucceeds
        ts te rt).outcome = .mp4Preview) ∧
    (ffmpegLoads = true → firstExecSucceeds = false →
      (downloadRecording chunks ffmpegLoads firstExecSucceeds retryExecSucceeds
        ts te rt).execCalls = [ffmpegArgs ts te rt, ffmpegArgsNoAudio ts te rt] ∧
      FFArg.flag "-an" ∈ ffmpegArgsNoAudio ts te rt ∧
      FFArg.flag "-c:a" ∉ ffmpegArgsNoAudio ts te rt ∧
      FFArg.flag "-c:a" ∈ ffmpegArgs ts te rt ∧
      (retryExecSucceeds = false →
        (downloadRecording chunks ffmpegLoads firstExecSucceeds retryExecSucceeds
          ts te rt).outcome = .conversionFailed)) ∧
    (downloadRecording chunks ffmpegLoads firstExecSucceeds retryExecSucceeds
      ts te rt).chunksAfter = chunks := by
  have hempty : chunks.isEmpty = false := by
    cases chunks with
    | nil => exact absurd rfl hne
    | cons c cs => rfl
  refine ⟨?_, ?_, ?_, ?_⟩
  · rintro rfl
    simp [downloadRecording, hempty]
  · rintro rfl rfl
    simp [downloadRecording, hempty]
  · rintro rfl rfl
    refine ⟨?_, ?_, ?_, ?_, ?_⟩
    · cases retryExecSucceeds <;> simp [downloadRecording, hempty]
    · simp [ffmpegArgsNoAudio]
    · intro hmem
      rcases List.mem_append.mp hmem with h1 | h2
      · rcases List.mem_append.mp h1 with hh | ht
        · exact absurd hh (by decide)
        · rcases trimArgs_shape ts te rt _ ht with h | h | ⟨n, h⟩ <;> simp at h
      · exact absurd h2 (by decide)
    · simp [ffmpegArgs]
    · rintro rfl
      simp [downloadRecording, hempty]
  · unfold downloadRecording
    split
    · rfl
    · split
      · rfl
      · split
        · rfl
        · split <;> rfl

/-- C7 witness: concrete runs through the load-failure, retry-failure and
first-success paths with a one-chunk recording. -/
theorem downloadRecording_failure_paths_witness :
    (downloadRecording [[1]] false true true 0 10 10).outcome =
      .webmDownload [[1]] ∧
    (downloadRecording [[1]] true false false 2 8 10).outcome =
      .conversionFailed ∧
    (downloadRecording [[1]] true false false 2 8 10).execCalls.length = 2 ∧
    (downloadRecording [[1]] true false false 2 8 10).chunksAfter = [[1]] := by
  refine ⟨?_, ?_, ?_, ?_⟩
  · exact ((downloadRecording_failure_paths [[1]] false true true 0 10 10
      (by decide)).1 rfl).1
  · exact ((downloadRecording_failure_paths [[1]] true false false 2 8 10
      (by decide)).2.2.1 rfl rfl).2.2.2.2 rfl
  · rw [((downloadRecording_failure_paths [[1]] true false false 2 8 10
      (by decide)).2.2.1 rfl rfl).1]
    rfl
  · exact (downloadRecording_failure_paths [[1]] true false false 2 8 10
      (by decide)).2.2.2

end C7

section C4

open Navigation

/-- C4 counterexample: the engine keeps no signature or timestamp of the
last activated element — two back-to-back attempts on the same document
select the same element and dispatch two activation events, not one. -/
theorem autoClick_two_attempts_counterexample :
    autoClickTarget [⟨"Next", "", "", "", "", "", "BUTTON", 9, 10, true, ""⟩] =
      some ⟨"Next", "", "", "", "", "", "BUTTON", 9, 10, true, ""⟩ ∧
    runAttempts true [⟨"Next", "", "", "", "", "", "BUTTON", 9, 10, true, ""⟩] 2 = 2 ∧
    ¬ runAttempts true [⟨"Next", "", "", "", "", "", "BUTTON", 9, 10, true, ""⟩] 2 = 1 := by
  refine ⟨by decide, by decide, by decide⟩

/-- C4 (amended): `autoClickElements` records no signature and applies no
cooldown: while recording, every scheduled attempt independently
re-selects a target from the document and dispatches an activation when
one exists, so `n` attempts over an unchanged document dispatch `n`
activations; with recording off no activation is dispatched. -/
theorem autoClick_stateless_no_cooldown (doc : List DomElement) (n : Nat) :
    runAttempts true doc n = n * attemptActivations true doc ∧
    runAttempts false doc n = 0 ∧
    attemptActivations true doc =
      (if (autoClickTarget doc).isSome then 1 else 0) := by
  refine ⟨?_, ?_, ?_⟩
  · induction n with
    | zero => simp [runAttempts]
    | succ m ih => simp [runAttempts, ih, Nat.succ_mul]
  · induction n with
    | zero => rfl
    | succ m ih => simp [runAttempts, ih, attemptActivations]
  · unfold attemptActivations
    cases autoClickTarget doc <;> simp

end C4

section C6

open StrUtil Navigation

theorem exactTextMatch_implies_includes {t k : List Char}
    (h : exactTextMatch t k = true) : strIncludes t k = true := by
  simp only [exactTextMatch, Bool.or_eq_true, beq_iff_eq] at h
  rcases h with ((h | h) | h) | h
  · rw [h]; exact strIncludes_refl k
  · refine strIncludes_trans h ?_
    exact (strIncludes_iff _ _).mpr ⟨[' '], [' '], by simp⟩
  · exact strIncludes_of_isPrefOf h
  · exact strIncludes_of_endsWithL h

theorem keywordBonus_of_not_in_text {t S k : List Char} (hk : ' ' ∉ k)
    (hne : k ≠ []) (h : strIncludes t k = false) :
    keywordBonus t (t ++ ' ' :: S) k = if strIncludes S k then 10 else 0 := by
  have hpat : exactTextMatch t k = false := by
    cases hm : exactTextMatch t k
    · rfl
    · rw [exactTextMatch_implies_includes hm] at h; cases h
  unfold keywordBonus
  rw [strIncludes_append_space hk hne, h, Bool.false_or, hpat]
  cases hS : strIncludes S k <;> simp

theorem keywordBonus_next (S : List Char) :
    keywordBonus "next".data ("next".data ++ ' ' :: S) "next".data = 30 := by
  have hinc : strIncludes ("next".data ++ ' ' :: S) "next".data = true := by
    rw [strIncludes_append_space (by decide) (by decide),
      show strIncludes "next".data "next".data = true from by decide,
      Bool.true_or]
  unfold keywordBonus
  rw [hinc, show exactTextMatch "next".data "next".data = true from by decide]
  rfl

theorem keywordFacts :
    ∀ kw ∈ navigationKeywords, kw.data ≠ [] ∧ ' ' ∉ kw.data := by decide

theorem nextTailFacts :
    ∀ kw ∈ navigationKeywords.drop 1,
      strIncludes "next".data kw.data = false := by decide

theorem tail_mem_keywords :
    ∀ kw ∈ navigationKeywords.drop 1, kw ∈ navigationKeywords := by decide

theorem sum_map_congr {α : Type} {l : List α} {f g : α → Nat}
    (h : ∀ x ∈ l, f x = g x) : (l.map f).sum = (l.map g).sum := by
  induction l with
  | nil => rfl
  | cons a l ih =>
    simp only [List.map_cons, List.sum_cons]
    rw [h a (List.mem_cons_self a l), ih (fun x hx => h x (List.mem_cons_of_mem a hx))]

theorem keywordScore_decomp (t allT : List Char) :
    keywordScore t allT = keywordBonus t allT "next".data +
      ((navigationKeywords.drop 1).map
        (fun kw => keywordBonus t allT kw.data)).sum := rfl

/-- C6: the candidate score is a deterministic pure function of text,
class, id, aria-label, title, data text, tag and position, and it is
monotone in keyword evidence: among two candidates identical except for
their visible text, the one whose text is exactly `Next` scores strictly
higher than the one whose text contains no navigation keyword. -/
theorem scoreElement_deterministic_and_monotone (a b : DomElement)
    (hc : a.className = b.className) (hid : a.id = b.id)
    (hal : a.ariaLabel = b.ariaLabel) (hti : a.title = b.title)
    (hda : a.dataAccText = b.dataAccText) (htag : a.tagName = b.tagName)
    (hr : a.rectRight = b.rectRight) (hv : a.viewportWidth = b.viewportWidth) :
    (a.textContent = b.textContent → scoreElement a = scoreElement b) ∧
    (a.textContent = "Next" →
      (∀ kw ∈ navigationKeywords, strIncludes (textOf b) kw.data = false) →
      scoreElement b < scoreElement a) := by
  have hblob : attrBlob a = attrBlob b := by
    unfold attrBlob; rw [hc, hid, hal, hti, hda]
  have hstatic : staticBonus a = staticBonus b := by
    unfold staticBonus; rw [hc, htag, hr, hv]
  constructor
  · intro htext
    unfold scoreElement allTextOf textOf
    rw [htext, hblob, hstatic]
  · intro htextA hB
    have hts : textOf a = "next".data := by
      unfold textOf; rw [htextA]; decide
    have hallA : allTextOf a = "next".data ++ ' ' :: attrBlob b := by
      unfold allTextOf; rw [hts, hblob]
    have hallB : allTextOf b = textOf b ++ ' ' :: attrBlob b := rfl
    set S := attrBlob b with hSdef
    have haScore : keywordScore (textOf a) (allTextOf a) =
        30 + ((navigationKeywords.drop 1).map
          (fun kw => if strIncludes S kw.data then 10 else 0)).sum := by
      rw [keywordScore_decomp, hts, hallA, keywordBonus_next]
      refine congrArg (fun x => 30 + x) (sum_map_congr fun kw hkw => ?_)
      have h2 := keywordFacts kw (tail_mem_keywords kw hkw)
      exact keywordBonus_of_not_in_text h2.2 h2.1 (nextTailFacts kw hkw)
    have hbScore : keywordScore (textOf b) (allTextOf b) ≤
        10 + ((navigationKeywords.drop 1).map
          (fun kw => if strIncludes S kw.data then 10 else 0)).sum := by
      rw [keywordScore_decomp, hallB]
      have hmem : ("next" : String) ∈ navigationKeywords := by decide
      have h2n := keywordFacts "next" hmem
      rw [keywordBonus_of_not_in_text h2n.2 h2n.1 (hB "next" hmem)]
      have htail : ((navigationKeywords.drop 1).map
          (fun kw => keywordBonus (textOf b) (textOf b ++ ' ' :: S) kw.data)).sum =
          ((navigationKeywords.drop 1).map
            (fun kw => if strIncludes S kw.data then 10 else 0)).sum := by
        apply sum_map_congr
        intro kw hkw
        have h2 := keywordFacts kw (tail_mem_keywords kw hkw)
        exact keywordBonus_of_not_in_text h2.2 h2.1 (hB kw (tail_mem_keywords kw hkw))
      rw [htail]
      have hbound : (if strIncludes S "next".data then 10 else 0) ≤ 10 := by
        split <;> omega
      omega
    unfold scoreElement
    rw [hstatic]
    omega

/-- C6 witness: a concrete `Next` button against an otherwise identical
filler-text sibling. -/
theorem scoreElement_monotone_witness :
    scoreElement ⟨"click here", "cls", "i", "", "", "", "BUTTON", 9, 10, true, ""⟩ <
    scoreElement ⟨"Next", "cls", "i", "", "", "", "BUTTON", 9, 10, true, ""⟩ :=
  (scoreElement_deterministic_and_monotone
    ⟨"Next", "cls", "i", "", "", "", "BUTTON", 9, 10, true, ""⟩
    ⟨"click here", "cls", "i", "", "", "", "BUTTON", 9, 10, true, ""⟩
    rfl rfl rfl rfl rfl rfl rfl rfl).2 rfl (by decide)

end C6
